import Mathlib

/-
Verification of the audio fingerprinting and matching core
(files fingerprints.py, database.py, defaults.py, Capstone/last4Bulletpoint.py).

The Python source is shallowly embedded: spectrogram amplitudes are modelled as
rationals, the 2-D spectrogram as a structure carrying its dimensions and a
value function, Python dicts as association lists in insertion order, and
generator functions as list-producing functions.  Machine floats only enter the
source through amplitude comparisons and the cutoff-index computation, both of
which are order-theoretic and are modelled exactly on the rationals.
-/

/-! ## Peak detection (fingerprints.py) -/

/-- A 2-D array of log-scaled spectrogram amplitudes, `H` frequency rows by
`W` time columns; `data r c` is the amplitude at row `r`, column `c`.
Only in-bounds indices are ever read by the embedded code. -/
structure Grid where
  H : Nat
  W : Nat
  data : Nat → Nat → ℚ

/-- Embeds the neighborhood construction of `local_peaks`:
`generate_binary_structure(2, 1)` is the 4-connected cross, and
`iterate_structure(struct, p_nn)` dilates it into the diamond of all offsets
with Manhattan norm at most `p_nn`; `np.where` then lists its true cells in
row-major order, and both index arrays are shifted so that the offsets are
centered on the origin. -/
def neighborhoodOffsets (p_nn : Nat) : List (Int × Int) :=
  (List.range (2 * p_nn + 1)).flatMap fun i =>
    (List.range (2 * p_nn + 1)).filterMap fun j =>
      let dr : Int := (i : Int) - p_nn
      let dc : Int := (j : Int) - p_nn
      if dr.natAbs + dc.natAbs ≤ p_nn then some (dr, dc) else none

/-- Embeds the body of the scan loop of `_peaks` for one candidate cell
`(r, c)`: the cell must exceed `amp_min`, and every offset in the neighborhood
is either the zero offset, out of bounds, or points at an amplitude not larger
than the candidate (the for-else construct appends a peak exactly when no
strictly larger in-bounds neighbor caused a break). -/
def isPeak (g : Grid) (offsets : List (Int × Int)) (amp_min : ℚ) (r c : Nat) : Bool :=
  decide (amp_min < g.data r c) &&
  offsets.all fun d =>
    (decide (d.1 = 0) && decide (d.2 = 0)) ||
    !(decide (0 ≤ (r : Int) + d.1) && decide ((r : Int) + d.1 < (g.H : Int))) ||
    !(decide (0 ≤ (c : Int) + d.2) && decide ((c : Int) + d.2 < (g.W : Int))) ||
    decide (g.data ((r : Int) + d.1).toNat ((c : Int) + d.2).toNat ≤ g.data r c)

/-- Embeds `_peaks`: `np.ndindex(*data_2d.shape[::-1])` iterates `(c, r)` with
`c` outer and `r` inner, and each surviving cell is appended as the pair
`(c, r)`, i.e. `(time_index, freq_index)`. -/
def _peaks (g : Grid) (offsets : List (Int × Int)) (amp_min : ℚ) : List (Nat × Nat) :=
  (List.range g.W).flatMap fun c =>
    (List.range g.H).filterMap fun r =>
      if isPeak g offsets amp_min r c then some (c, r) else none

/-- Embeds `local_peaks`: builds the dilated diamond neighborhood of radius
`p_nn` and runs `_peaks` over it. -/
def local_peaks (g : Grid) (amp_min : ℚ) (p_nn : Nat) : List (Nat × Nat) :=
  _peaks g (neighborhoodOffsets p_nn) amp_min

/-! ## Fingerprint generation (fingerprints.py) -/

/-- Embeds the generator `peaks_to_fingerprints`: for each anchor peak
`(t1, f1)` at position `n`, the slice `peaks[n+1 : n+fan_value+1]` is the next
`fan_value` peaks of the remaining sequence, and each paired peak `(t2, f2)`
yields the record `((f1, f2, t2 - t1), t1)`.  The recursion over the list is
the `enumerate` loop with the slice expressed as `take fan_value` of the tail. -/
def peaks_to_fingerprints : List (Nat × Nat) → Nat → List ((Nat × Nat × Int) × Nat)
  | [], _ => []
  | (t1, f1) :: rest, fan_value =>
      ((rest.take fan_value).map fun p => ((f1, p.2, (p.1 : Int) - (t1 : Int)), t1))
        ++ peaks_to_fingerprints rest fan_value

/-! ## Spectrogram cutoff (fingerprints.py, digital_to_spec) -/

/-- Embeds the cutoff-index computation `int(frac_cut * S.size)` of
`digital_to_spec`.  Python `int()` truncates toward zero; for the nonnegative
products arising here this coincides with the floor, so the index is
`⌊frac_cut * N⌋` clamped to a natural number. -/
def cutoffIndex (N : Nat) (frac_cut : ℚ) : Nat :=
  (⌊frac_cut * (N : ℚ)⌋).toNat

/-- Embeds the cutoff selection
`np.partition(S.ravel(), cutoff_index)[cutoff_index]` of `digital_to_spec`:
`np.partition` guarantees that the element landing at position `k` is the one
that would occupy position `k` in sorted order, so the selected value equals
the entry at `cutoff_index` of the fully sorted array.  `np.partition` raises
a ValueError when `kth` is not smaller than the array length; the raised
exception is modelled by `none`. -/
def spec_cutoff (values : List ℚ) (frac_cut : ℚ) : Option ℚ :=
  (List.insertionSort (fun a b : ℚ => a ≤ b) values)[cutoffIndex values.length frac_cut]?

/-- Models the size of the spectrogram array returned by
`mlab.specgram(audio_samples, NFFT=4096, Fs=fs, window=hanning, noverlap=2048)`
for an input of `n` samples.  The delegated matplotlib routine zero-pads any
input shorter than NFFT (including an empty one) up to one full window, so it
always produces `NFFT / 2 + 1 = 2049` frequency rows and at least one time
column; for longer inputs the segment count is
`(n - NFFT) / (NFFT - noverlap) + 1`. -/
def specgram_size (n : Nat) : Nat :=
  2049 * (if n ≤ 4096 then 1 else 1 + (n - 4096) / 2048)

/-- Embeds the failure behavior of `digital_to_spec` on an input of
`samples_len` samples: the only explicit validation in the source is
`assert 0.0 <= frac_cut <= 1.0`, and the only other way the call can raise is
the out-of-range `kth` check inside `np.partition` on the `specgram_size`
values of the log-spectrogram.  Returns `true` exactly when the call raises. -/
def digital_to_spec_fails (samples_len : Nat) (frac_cut : ℚ) : Bool :=
  !(decide (0 ≤ frac_cut) && decide (frac_cut ≤ 1)) ||
  decide (specgram_size samples_len ≤ cutoffIndex (specgram_size samples_len) frac_cut)

/-! ## The song database (database.py) -/

/-- A fingerprint hash `(f1, f2, dt)` as stored in `fp_lookup`. -/
abbrev FpHash := Int × Int × Int

/-- Embeds the `Database` named tuple of database.py: `fp_lookup` maps a hash
to its list of `(song_id, t1)` postings and `song_id_to_name` maps a song id
to its name.  Python dicts preserve insertion order, so both are association
lists. -/
structure Database where
  fp_lookup : List (FpHash × List (Nat × Int))
  song_id_to_name : List (Nat × String)
deriving DecidableEq

/-- Embeds a plain Python `dict` read (`d.get(k)` / `k in d` followed by
`d[k]`): the value stored under the first matching key, if any.  No mutation
is performed, in particular no defaultdict insertion happens on `.get`. -/
def dict_get {K V : Type} [DecidableEq K] (m : List (K × V)) (k : K) : Option V :=
  (m.find? fun kv => decide (kv.1 = k)).map (fun kv => kv.2)

/-- Embeds `fingerprints_to_matches` as the list of all yielded pairs: for
each sample fingerprint `(hash, t_sample)`, `db.fp_lookup.get(hash)` is read,
and every posting `(s_id, t_song)` found yields `(s_id, t_song - t_sample)`. -/
def fingerprints_to_matches (sample_fingerprints : List (FpHash × Int)) (db : Database) :
    List (Nat × Int) :=
  sample_fingerprints.flatMap fun ht =>
    match dict_get db.fp_lookup ht.1 with
    | none => []
    | some bucket => bucket.map fun p => (p.1, p.2 - ht.2)

/-- Embeds the state-passing view of a `dict.get` access on the posting map:
Python `dict.get` never inserts a default entry, so it returns the looked-up
value together with the untouched map.  (Contrast `defaultdict.__getitem__`,
which would insert an empty bucket for an absent key.) -/
def ddict_get (m : List (FpHash × List (Nat × Int))) (k : FpHash) :
    Option (List (Nat × Int)) × List (FpHash × List (Nat × Int)) :=
  (dict_get m k, m)

/-- Embeds `defaultdict.__getitem__` on the posting map: an absent key is
inserted with the default empty bucket before being returned.  This is the
access the ingest path uses; the matching path uses `ddict_get` instead. -/
def ddict_getitem (m : List (FpHash × List (Nat × Int))) (k : FpHash) :
    List (Nat × Int) × List (FpHash × List (Nat × Int)) :=
  match dict_get m k with
  | some v => (v, m)
  | none => ([], m ++ [(k, [])])

/-- Embeds the full consumption of the `fingerprints_to_matches` generator as
an explicit state transformer on the database, with every hash access going
through the `dict.get` step `ddict_get` exactly as the source performs it;
returns the yielded matches together with the database state after the pass. -/
def fingerprints_to_matches_run :
    List (FpHash × Int) → Database → List (Nat × Int) × Database
  | [], db => ([], db)
  | ht :: rest, db =>
      let got := ddict_get db.fp_lookup ht.1
      let db1 : Database := ⟨got.2, db.song_id_to_name⟩
      let here := match got.1 with
        | none => []
        | some bucket => bucket.map fun p => (p.1, p.2 - ht.2)
      let tail := fingerprints_to_matches_run rest db1
      (here ++ tail.1, tail.2)

/-! ## Counter and best match (database.py, match_recording) -/

/-- Worker for `firstOccs`, carrying the set of elements already listed. -/
def firstOccsAux {α : Type} [DecidableEq α] : List α → List α → List α
  | [], _ => []
  | a :: l, seen =>
      if a ∈ seen then firstOccsAux l seen else a :: firstOccsAux l (a :: seen)

/-- The distinct elements of a list in order of first occurrence: the key
order of a Python `Counter` built by iterating the list. -/
def firstOccs {α : Type} [DecidableEq α] (xs : List α) : List α :=
  firstOccsAux xs []

/-- The number of occurrences of `a` in `xs`: the tally a Python `Counter`
stores for the key `a`. -/
def countOcc {α : Type} [DecidableEq α] (xs : List α) (a : α) : Nat :=
  (xs.filter fun b => decide (b = a)).length

/-- Embeds `Counter(matches).most_common(1)[0]`: `Counter` tallies each
distinct element (keys in first-occurrence order) and `most_common` sorts the
tally stably by descending count, so the head of the result is the first
distinct element attaining the maximal count, paired with that count.
Returns `none` exactly when the counter is empty. -/
def mostCommonOne {α : Type} [DecidableEq α] (xs : List α) : Option (α × Nat) :=
  match (firstOccs xs).map (fun a => (a, countOcc xs a)) with
  | [] => none
  | y :: ys => some (ys.foldl (fun best c => if best.2 < c.2 then c else best) y)

/-- The maximal occurrence count attained by any element of the list. -/
def maxCount {α : Type} [DecidableEq α] (xs : List α) : Nat :=
  (xs.map fun a => countOcc xs a).foldr max 0

/-- Embeds the match-selection logic of `match_recording` downstream of the
microphone and fingerprinting steps: count the `(song_id, dt)` matches, return
`(None, 0)` when there are none, and otherwise resolve the song id of the most
common candidate through `song_id_to_name` and pair it with its count. -/
def match_recording_core (sample_fingerprints : List (FpHash × Int)) (db : Database) :
    Option String × Nat :=
  match mostCommonOne (fingerprints_to_matches sample_fingerprints db) with
  | none => (none, 0)
  | some (p, cnt) => (dict_get db.song_id_to_name p.1, cnt)

/-! ## The prototype database module (Capstone/last4Bulletpoint.py) -/

/-- A fingerprint record of the prototype module: a hash triple plus the
anchor time, as in `test_fingerprint`. -/
abbrev CapRecord := Int × Int × Int × Int

/-- The prototype database: a dict from hash triples to lists of
`(song, time)` postings, in insertion order. -/
abbrev CapDB := List ((Int × Int × Int) × List (String × Int))

/-- Embeds one iteration of the insertion loop of `add_to_db`: if
`pair[0:3]` is not yet a key, an empty bucket is created for it, and then
`(songID, pair[3])` is appended to that bucket. -/
def capAppend (d : CapDB) (pair : CapRecord) (songID : String) : CapDB :=
  let key : Int × Int × Int := (pair.1, pair.2.1, pair.2.2.1)
  let t : Int := pair.2.2.2
  if d.any fun kv => decide (kv.1 = key) then
    d.map fun kv => if kv.1 = key then (kv.1, kv.2 ++ [(songID, t)]) else kv
  else
    d ++ [(key, [(songID, t)])]

/-- Embeds `add_to_db`: the double loop over all postings returns the
duplicate message at the first posting whose song equals `songID`, before any
mutation; otherwise `songInDataBase` was set to `False` by some examined
posting — which happens iff at least one bucket is non-empty — and only then
is every fingerprint pair appended.  (When every bucket is empty the flag
keeps its initial `True` value and the insertion block is skipped, so nothing
is added.)  Returns the resulting database and the returned message, `none`
standing for the implicit Python `None`. -/
def add_to_db (database : CapDB) (fingerprint : List CapRecord) (songID : String) :
    CapDB × Option String :=
  if database.any fun kv => kv.2.any fun song => decide (song.1 = songID) then
    (database, some "Song is already in database.")
  else if database.all fun kv => kv.2.isEmpty then
    (database, none)
  else
    (fingerprint.foldl (fun d pair => capAppend d pair songID) database, none)

/-- Embeds Python `list.remove(a)`: removes the first element equal to `a`. -/
def pyRemoveFirst {α : Type} [DecidableEq α] : List α → α → List α
  | [], _ => []
  | x :: rest, a => if x = a then rest else x :: pyRemoveFirst rest a

/-- Embeds the `for song in songList` loop of `delete_song`, which mutates
`songList` while iterating: the Python list iterator keeps a position `i`,
fetches `songList[i]`, lets the body run (possibly removing the fetched
element and shifting later elements left), and then advances to `i + 1` of the
mutated list.  The loop ends once `i` reaches the current length; since the
position grows by one per step and the list never grows, `xs.length` steps of
fuel always suffice, so the fueled recursion computes exactly the loop. -/
def deleteScan (songID : String) : Nat → List (String × Int) → Nat → List (String × Int)
  | 0, xs, _ => xs
  | fuel + 1, xs, i =>
      if h : i < xs.length then
        let song := xs.get ⟨i, h⟩
        let xs1 := if song.1 = songID then pyRemoveFirst xs song else xs
        deleteScan songID fuel xs1 (i + 1)
      else xs

/-- Embeds `delete_song`: every bucket of the database is scanned by the
mutating-iteration loop `deleteScan`, starting at position 0 with enough fuel
for the whole bucket. -/
def delete_song (database : CapDB) (songID : String) : CapDB :=
  database.map fun kv => (kv.1, deleteScan songID kv.2.length kv.2 0)

/-! ## Helper lemmas -/

theorem mem_firstOccsAux {α : Type} [DecidableEq α] (xs : List α) :
    ∀ (seen : List α) (x : α), x ∈ firstOccsAux xs seen ↔ x ∈ xs ∧ x ∉ seen := by
  induction xs with
  | nil => intro seen x; simp [firstOccsAux]
  | cons a l ih =>
    intro seen x
    unfold firstOccsAux
    by_cases ha : a ∈ seen
    · rw [if_pos ha]
      simp only [ih, List.mem_cons]
      by_cases hx : x = a
      · subst hx; tauto
      · tauto
    · rw [if_neg ha]
      simp only [List.mem_cons, ih, List.mem_cons]
      by_cases hx : x = a
      · subst hx; tauto
      · tauto

theorem mem_firstOccs {α : Type} [DecidableEq α] {xs : List α} {x : α} :
    x ∈ firstOccs xs ↔ x ∈ xs := by
  unfold firstOccs
  rw [mem_firstOccsAux]
  simp

theorem foldl_best_spec {α : Type} (y : α × Nat) (ys : List (α × Nat)) :
    ys.foldl (fun best c => if best.2 < c.2 then c else best) y ∈ y :: ys ∧
    ∀ z ∈ y :: ys, z.2 ≤ (ys.foldl (fun best c => if best.2 < c.2 then c else best) y).2 := by
  induction ys generalizing y with
  | nil => simp
  | cons c cs ih =>
    have h := ih (if y.2 < c.2 then c else y)
    have hstep : (if y.2 < c.2 then c else y) ∈ y :: c :: cs := by
      by_cases hc : y.2 < c.2 <;> simp [hc]
    have hy2 : y.2 ≤ (if y.2 < c.2 then c else y).2 := by
      by_cases hc : y.2 < c.2
      · rw [if_pos hc]; omega
      · rw [if_neg hc]
    have hc2 : c.2 ≤ (if y.2 < c.2 then c else y).2 := by
      by_cases hc : y.2 < c.2
      · rw [if_pos hc]
      · rw [if_neg hc]; omega
    rw [List.foldl_cons]
    constructor
    · rcases List.mem_cons.1 h.1 with heq | hmem
      · rw [heq]; exact hstep
      · exact List.mem_cons_of_mem _ (List.mem_cons_of_mem _ hmem)
    · intro z hz
      have hhead := h.2 (if y.2 < c.2 then c else y) (List.mem_cons_self _ _)
      rcases List.mem_cons.1 hz with rfl | hz
      · exact le_trans hy2 hhead
      · rcases List.mem_cons.1 hz with rfl | hz
        · exact le_trans hc2 hhead
        · exact h.2 z (List.mem_cons_of_mem _ hz)

theorem le_foldr_max {l : List Nat} {v : Nat} (h : v ∈ l) : v ≤ l.foldr max 0 := by
  induction l with
  | nil => cases h
  | cons x xs ih =>
    rcases List.mem_cons.1 h with rfl | h
    · exact Nat.le_max_left _ _
    · exact le_trans (ih h) (Nat.le_max_right _ _)

theorem foldr_max_le {l : List Nat} {n : Nat} (h : ∀ v ∈ l, v ≤ n) : l.foldr max 0 ≤ n := by
  induction l with
  | nil => exact Nat.zero_le n
  | cons x xs ih =>
    have : max x (xs.foldr max 0) ≤ n :=
      Nat.max_le.2 ⟨h x (List.mem_cons_self _ _), ih fun v hv => h v (List.mem_cons_of_mem _ hv)⟩
    exact this

theorem count_le_maxCount {α : Type} [DecidableEq α] {xs : List α} {a : α} (h : a ∈ xs) :
    countOcc xs a ≤ maxCount xs :=
  le_foldr_max (List.mem_map_of_mem _ h)

theorem maxCount_le {α : Type} [DecidableEq α] {xs : List α} {n : Nat}
    (h : ∀ b ∈ xs, countOcc xs b ≤ n) : maxCount xs ≤ n := by
  refine foldr_max_le fun v hv => ?_
  obtain ⟨b, hb, rfl⟩ := List.mem_map.1 hv
  exact h b hb

theorem mostCommonOne_eq_none_iff {α : Type} [DecidableEq α] (xs : List α) :
    mostCommonOne xs = none ↔ xs = [] := by
  cases xs with
  | nil => simp [mostCommonOne, firstOccs, firstOccsAux]
  | cons a l => simp [mostCommonOne, firstOccs, firstOccsAux]

theorem mostCommonOne_spec {α : Type} [DecidableEq α] {xs : List α} {a : α} {n : Nat}
    (h : mostCommonOne xs = some (a, n)) :
    a ∈ xs ∧ n = countOcc xs a ∧ ∀ b ∈ xs, countOcc xs b ≤ n := by
  unfold mostCommonOne at h
  rcases hfo : (firstOccs xs).map (fun a => (a, countOcc xs a)) with _ | ⟨y, ys⟩
  · rw [hfo] at h; cases h
  · rw [hfo] at h
    have hspec := foldl_best_spec y ys
    rw [← hfo] at hspec
    have hres : (a, n) ∈ (firstOccs xs).map (fun a => (a, countOcc xs a)) := by
      rw [← Option.some.inj h]; exact hspec.1
    obtain ⟨a0, ha0, heq⟩ := List.mem_map.1 hres
    have ha : a0 = a := congrArg Prod.fst heq
    have hn : countOcc xs a0 = n := congrArg Prod.snd heq
    subst ha
    refine ⟨mem_firstOccs.1 ha0, hn.symm, fun b hb => ?_⟩
    have hbmem : (b, countOcc xs b) ∈ (firstOccs xs).map (fun a => (a, countOcc xs a)) :=
      List.mem_map_of_mem _ (mem_firstOccs.2 hb)
    have := hspec.2 (b, countOcc xs b) hbmem
    rw [Option.some.inj h] at this
    exact this

/-! ## Claim C10: the matching pass is a pure read -/

/-- C10: for every database state and every sequence of query fingerprints,
consuming the whole `fingerprints_to_matches` generator leaves the database
unchanged — the hash-to-postings map and the name table after the pass equal
the ones before, so in particular no empty bucket is created for a queried
hash that is absent — and the yielded matches are those of the pure
description. -/
theorem matches_pass_is_pure_read (fps : List (FpHash × Int)) (db : Database) :
    (fingerprints_to_matches_run fps db).2 = db ∧
    (fingerprints_to_matches_run fps db).1 = fingerprints_to_matches fps db := by
  induction fps generalizing db with
  | nil => exact ⟨rfl, rfl⟩
  | cons ht rest ih =>
    have h := ih db
    constructor
    · simpa [fingerprints_to_matches_run, ddict_get] using h.1
    · simp only [fingerprints_to_matches_run, ddict_get, fingerprints_to_matches,
        List.flatMap_cons]
      rw [h.2]
      rfl

/-! ## Claim C7: fingerprint count formula -/

theorem peaks_to_fingerprints_length_aux (peaks : List (Nat × Nat)) (F : Nat) :
    (peaks_to_fingerprints peaks F).length = ∑ k ∈ Finset.range peaks.length, min F k := by
  induction peaks with
  | nil => simp [peaks_to_fingerprints]
  | cons p rest ih =>
    obtain ⟨t1, f1⟩ := p
    simp only [peaks_to_fingerprints, List.length_append, List.length_map, List.length_take,
      ih, List.length_cons]
    rw [Finset.sum_range_succ]
    omega

/-- C7: on a peak sequence of length `L` with fan-out `F ≥ 1`, the fingerprint
generator produces exactly `Σ min(F, L-1-n)` fingerprints over `n = 0..L-1`:
each anchor is paired with exactly the next `min(F, L-1-n)` peaks. -/
theorem peaks_to_fingerprints_length (peaks : List (Nat × Nat)) (F : Nat) (hF : 1 ≤ F) :
    (peaks_to_fingerprints peaks F).length
      = ∑ n ∈ Finset.range peaks.length, min F (peaks.length - 1 - n) := by
  rw [peaks_to_fingerprints_length_aux]
  exact (Finset.sum_range_reflect (fun k => min F k) peaks.length).symm

/-- Witness for C7 at a concrete three-peak sequence with fan-out 2. -/
theorem peaks_to_fingerprints_length_witness :
    1 ≤ 2 ∧
    (peaks_to_fingerprints [(0, 0), (1, 1), (2, 2)] 2).length
      = ∑ n ∈ Finset.range ([(0, 0), (1, 1), (2, 2)] : List (Nat × Nat)).length,
          min 2 (([(0, 0), (1, 1), (2, 2)] : List (Nat × Nat)).length - 1 - n) :=
  ⟨by decide, peaks_to_fingerprints_length [(0, 0), (1, 1), (2, 2)] 2 (by decide)⟩

/-! ## Claim C3: duplicate adds are rejected and mutate nothing -/

/-- C3: whenever the song identifier already occurs in some existing posting
of some bucket, `add_to_db` returns the duplicate-song message and leaves the
database exactly as it was — no posting is appended to any bucket.  The check
compares `songID` against the song field of postings, never against a name
table. -/
theorem add_to_db_rejects_duplicate (database : CapDB) (fingerprint : List CapRecord)
    (songID : String) (hdup : ∃ kv ∈ database, ∃ song ∈ kv.2, song.1 = songID) :
    add_to_db database fingerprint songID
      = (database, some "Song is already in database.") := by
  unfold add_to_db
  rw [if_pos]
  simp only [List.any_eq_true, decide_eq_true_eq]
  obtain ⟨kv, hkv, song, hs, he⟩ := hdup
  exact ⟨kv, hkv, song, hs, he⟩

/-- Witness for C3 at a concrete single-bucket database. -/
theorem add_to_db_rejects_duplicate_witness :
    (∃ kv ∈ ([((1, 2, 3), [("A", 5)])] : CapDB), ∃ song ∈ kv.2, song.1 = "A") ∧
    add_to_db [((1, 2, 3), [("A", 5)])] [(9, 9, 9, 4)] "A"
      = ([((1, 2, 3), [("A", 5)])], some "Song is already in database.") :=
  ⟨by decide, add_to_db_rejects_duplicate _ _ _ (by decide)⟩

/-! ## Claim C2: delete_song misses consecutive postings (a source bug) -/

/-- C2: evaluation of the embedded `delete_song` at the failing input.  The
claim states that every posting of the deleted identifier is removed from
every bucket; on a bucket holding the two consecutive postings `("A", 1)` and
`("A", 2)`, removing `("A", 1)` at iterator position 0 shifts `("A", 2)` to
position 0 and the iterator then advances past it, so `("A", 2)` survives the
scan: the bucket that previously held only postings for the deleted song is
left non-empty. -/
theorem delete_song_skips_consecutive_postings :
    delete_song [((1, 2, 3), [("A", 1), ("A", 2)])] "A" = [((1, 2, 3), [("A", 2)])] ∧
    ∃ kv ∈ delete_song [((1, 2, 3), [("A", 1), ("A", 2)])] "A",
      ∃ song ∈ kv.2, song.1 = "A" := by
  decide

/-! ## Claim C9: validation in digital_to_spec -/

/-- C9 (amended): the assert of `digital_to_spec` makes the call fail for
every `frac_cut` outside `[0, 1]`, for every input length.  (The empty-buffer
half of the original claim is refuted by
`digital_to_spec_empty_buffer_no_failure`.) -/
theorem digital_to_spec_rejects_bad_frac (samples_len : Nat) (frac_cut : ℚ)
    (h : ¬ (0 ≤ frac_cut ∧ frac_cut ≤ 1)) :
    digital_to_spec_fails samples_len frac_cut = true := by
  unfold digital_to_spec_fails
  rcases Decidable.not_and_iff_or_not.1 h with h1 | h1 <;>
    simp [decide_eq_false h1]

/-- Counterexample for C9 as stated: an empty sample buffer with the default
cutoff fraction 0.77 is not rejected — matplotlib zero-pads the empty input to
one full FFT window, the spectrogram has 2049 values, the partition index
`int(0.77 * 2049) = 1577` is in range, and the call returns normally instead
of failing. -/
theorem digital_to_spec_empty_buffer_no_failure :
    digital_to_spec_fails 0 (77 / 100) = false := by
  norm_num [digital_to_spec_fails, specgram_size, cutoffIndex]

/-- Witness for C9 (amended) at the out-of-range fraction 2. -/
theorem digital_to_spec_rejects_bad_frac_witness :
    ¬ ((0 : ℚ) ≤ 2 ∧ (2 : ℚ) ≤ 1) ∧ digital_to_spec_fails 0 2 = true :=
  ⟨by norm_num, digital_to_spec_rejects_bad_frac 0 2 (by norm_num)⟩

/-! ## Claim C1: the matcher -/

/-- A concrete database used to instantiate the matcher theorem. -/
def dbW : Database :=
  ⟨[((1, 2, 3), [(0, 10), (1, 50)]), ((4, 5, 6), [(0, 22)])], [(0, "alpha"), (1, "beta")]⟩

/-- C1: for every database and every finite sequence of query fingerprints,
the matcher counts the candidate tuples `(song_id, t_song - t_sample)` formed
from the postings found under each fingerprint hash; when no queried hash has
any posting it returns `(None, 0)` without error, and otherwise it returns the
name resolved from the song id of a candidate tuple attaining the maximal
occurrence count, together with that count. -/
theorem match_recording_core_spec (db : Database) (fps : List (FpHash × Int)) :
    ((∀ ht ∈ fps, ∀ bucket, dict_get db.fp_lookup ht.1 = some bucket → bucket = []) →
      match_recording_core fps db = (none, 0)) ∧
    (fingerprints_to_matches fps db ≠ [] →
      ∃ p ∈ fingerprints_to_matches fps db,
        countOcc (fingerprints_to_matches fps db) p
          = maxCount (fingerprints_to_matches fps db) ∧
        match_recording_core fps db
          = (dict_get db.song_id_to_name p.1,
             maxCount (fingerprints_to_matches fps db))) := by
  constructor
  · intro hno
    have hnil : fingerprints_to_matches fps db = [] := by
      unfold fingerprints_to_matches
      rw [List.flatMap_eq_nil_iff]
      intro ht hht
      rcases hg : dict_get db.fp_lookup ht.1 with _ | bucket
      · simp
      · have hb := hno ht hht bucket hg
        subst hb
        simp
    unfold match_recording_core
    rw [hnil]
    rfl
  · intro hne
    rcases hm : mostCommonOne (fingerprints_to_matches fps db) with _ | r
    · exact absurd ((mostCommonOne_eq_none_iff _).1 hm) hne
    · obtain ⟨a, n⟩ := r
      obtain ⟨hmem, hcnt, hall⟩ := mostCommonOne_spec hm
      have hmaxeq : n = maxCount (fingerprints_to_matches fps db) := by
        have h1 : maxCount (fingerprints_to_matches fps db) ≤ n := maxCount_le hall
        have h2 : countOcc (fingerprints_to_matches fps db) a
            ≤ maxCount (fingerprints_to_matches fps db) := count_le_maxCount hmem
        omega
      refine ⟨a, hmem, by omega, ?_⟩
      unfold match_recording_core
      rw [hm, ← hmaxeq]

/-- Witness for C1 at a concrete two-song database where song 0 wins with two
offset-consistent votes. -/
theorem match_recording_core_spec_witness :
    fingerprints_to_matches [((1, 2, 3), 0), ((4, 5, 6), 12)] dbW ≠ [] ∧
    ∃ p ∈ fingerprints_to_matches [((1, 2, 3), 0), ((4, 5, 6), 12)] dbW,
      countOcc (fingerprints_to_matches [((1, 2, 3), 0), ((4, 5, 6), 12)] dbW) p
        = maxCount (fingerprints_to_matches [((1, 2, 3), 0), ((4, 5, 6), 12)] dbW) ∧
      match_recording_core [((1, 2, 3), 0), ((4, 5, 6), 12)] dbW
        = (dict_get dbW.song_id_to_name p.1,
           maxCount (fingerprints_to_matches [((1, 2, 3), 0), ((4, 5, 6), 12)] dbW)) :=
  ⟨by decide, (match_recording_core_spec dbW [((1, 2, 3), 0), ((4, 5, 6), 12)]).2 (by decide)⟩

/-! ## Claims C5, C6, C4: peak properties -/

theorem peak_entry_eq {g : Grid} {offs : List (Int × Int)} {amp : ℚ} {c r : Nat}
    {x : Nat × Nat} (h : (if isPeak g offs amp r c then some (c, r) else none) = some x) :
    x = (c, r) ∧ isPeak g offs amp r c = true := by
  by_cases hp : isPeak g offs amp r c
  · rw [if_pos hp] at h
    exact ⟨(Option.some.inj h).symm, hp⟩
  · rw [if_neg hp] at h
    cases h

theorem local_peaks_pairwise (g : Grid) (amp_min : ℚ) (p_nn : Nat) :
    (local_peaks g amp_min p_nn).Pairwise
      (fun a b => a.1 < b.1 ∨ (a.1 = b.1 ∧ a.2 ≤ b.2)) := by
  unfold local_peaks _peaks
  rw [List.pairwise_flatMap]
  constructor
  · intro c hc
    rw [List.pairwise_filterMap]
    refine List.Pairwise.imp ?_ (List.pairwise_lt_range g.H)
    intro r r1 hrr b hb b1 hb1
    rw [Option.mem_def] at hb hb1
    obtain ⟨hbe, _⟩ := peak_entry_eq hb
    obtain ⟨hbe1, _⟩ := peak_entry_eq hb1
    subst hbe
    subst hbe1
    exact Or.inr ⟨rfl, Nat.le_of_lt hrr⟩
  · refine List.Pairwise.imp ?_ (List.pairwise_lt_range g.W)
    intro c c1 hcc x hx y hy
    obtain ⟨r, hr, hxe⟩ := List.mem_filterMap.1 hx
    obtain ⟨r1, hr1, hye⟩ := List.mem_filterMap.1 hy
    obtain ⟨hxeq, _⟩ := peak_entry_eq hxe
    obtain ⟨hyeq, _⟩ := peak_entry_eq hye
    subst hxeq
    subst hyeq
    exact Or.inl hcc

/-- C6: peaks are returned ordered by non-decreasing time index, and within an
equal time index by non-decreasing frequency index — the column-major scan
order of the spectrogram. -/
theorem local_peaks_time_freq_ordered (g : Grid) (amp_min : ℚ) (p_nn : Nat) :
    (local_peaks g amp_min p_nn).Pairwise
      (fun a b => a.1 < b.1 ∨ (a.1 = b.1 ∧ a.2 ≤ b.2)) :=
  local_peaks_pairwise g amp_min p_nn

theorem mem_local_peaks_isPeak {g : Grid} {amp_min : ℚ} {p_nn : Nat} {tc : Nat × Nat}
    (h : tc ∈ local_peaks g amp_min p_nn) :
    isPeak g (neighborhoodOffsets p_nn) amp_min tc.2 tc.1 = true := by
  unfold local_peaks _peaks at h
  obtain ⟨c, hc, hx⟩ := List.mem_flatMap.1 h
  obtain ⟨r, hr, hre⟩ := List.mem_filterMap.1 hx
  obtain ⟨heq, hp⟩ := peak_entry_eq hre
  subst heq
  exact hp

/-- C5: every reported peak has value strictly above the cutoff, and no
in-bounds neighbor at a nonzero offset of the configured neighborhood has a
strictly greater value (ties with neighbors do not disqualify a peak). -/
theorem local_peak_exceeds_cutoff_and_neighbors (g : Grid) (amp_min : ℚ) (p_nn : Nat)
    (tc : Nat × Nat) (hmem : tc ∈ local_peaks g amp_min p_nn) :
    amp_min < g.data tc.2 tc.1 ∧
    ∀ d ∈ neighborhoodOffsets p_nn, ¬ (d.1 = 0 ∧ d.2 = 0) →
      0 ≤ (tc.2 : Int) + d.1 → (tc.2 : Int) + d.1 < (g.H : Int) →
      0 ≤ (tc.1 : Int) + d.2 → (tc.1 : Int) + d.2 < (g.W : Int) →
      g.data ((tc.2 : Int) + d.1).toNat ((tc.1 : Int) + d.2).toNat ≤ g.data tc.2 tc.1 := by
  have hp := mem_local_peaks_isPeak hmem
  unfold isPeak at hp
  rw [Bool.and_eq_true] at hp
  refine ⟨of_decide_eq_true hp.1, ?_⟩
  intro d hd hzero hb1 hb2 hb3 hb4
  have hall := List.all_eq_true.1 hp.2 d hd
  simp only [Bool.or_eq_true] at hall
  rcases hall with ((hz | hoob) | hoob) | hle
  · rw [Bool.and_eq_true] at hz
    exact absurd ⟨of_decide_eq_true hz.1, of_decide_eq_true hz.2⟩ hzero
  · rw [Bool.not_eq_true'] at hoob
    rw [decide_eq_true hb1, decide_eq_true hb2] at hoob
    cases hoob
  · rw [Bool.not_eq_true'] at hoob
    rw [decide_eq_true hb3, decide_eq_true hb4] at hoob
    cases hoob
  · exact of_decide_eq_true hle

/-- A small spectrogram with a single interior maximum, used to instantiate
the peak-dominance theorem. -/
def gridA : Grid :=
  ⟨2, 2, fun r c => if r = 0 && c = 0 then 0 else if r = 1 && c = 1 then 2 else 1⟩

/-- Witness for C5 at the unique peak of `gridA`. -/
theorem local_peak_exceeds_cutoff_and_neighbors_witness :
    (1, 1) ∈ local_peaks gridA 0 1 ∧
    (0 < gridA.data 1 1 ∧
      ∀ d ∈ neighborhoodOffsets 1, ¬ (d.1 = 0 ∧ d.2 = 0) →
        0 ≤ (1 : Int) + d.1 → (1 : Int) + d.1 < (gridA.H : Int) →
        0 ≤ (1 : Int) + d.2 → (1 : Int) + d.2 < (gridA.W : Int) →
        gridA.data ((1 : Int) + d.1).toNat ((1 : Int) + d.2).toNat ≤ gridA.data 1 1) :=
  ⟨by decide, local_peak_exceeds_cutoff_and_neighbors gridA 0 1 (1, 1) (by decide)⟩

theorem dt_nonneg_of_time_mono : ∀ (peaks : List (Nat × Nat)) (F : Nat),
    (peaks.Pairwise fun a b => a.1 ≤ b.1) →
    ∀ fp ∈ peaks_to_fingerprints peaks F, 0 ≤ fp.1.2.2 := by
  intro peaks F
  induction peaks with
  | nil =>
    intro _ fp hfp
    simp [peaks_to_fingerprints] at hfp
  | cons p rest ih =>
    obtain ⟨t1, f1⟩ := p
    intro hpw fp hfp
    rw [List.pairwise_cons] at hpw
    simp only [peaks_to_fingerprints] at hfp
    rcases List.mem_append.1 hfp with hl | hr
    · obtain ⟨q, hq, rfl⟩ := List.mem_map.1 hl
      have hle : t1 ≤ q.1 := hpw.1 q (List.take_subset _ _ hq)
      show (0 : Int) ≤ (q.1 : Int) - (t1 : Int)
      omega
    · exact ih hpw.2 fp hr

/-- C4 (amended): every fingerprint generated from a peak-detector output has
time-index difference dt ≥ 0; the strict bound dt > 0 of the original claim is
refuted by `fingerprint_dt_zero_example`, since two peaks may share one time
index. -/
theorem fingerprint_dt_nonneg (g : Grid) (amp_min : ℚ) (p_nn : Nat) (F : Nat)
    (hF : 1 ≤ F) (fp : (Nat × Nat × Int) × Nat)
    (hmem : fp ∈ peaks_to_fingerprints (local_peaks g amp_min p_nn) F) :
    0 ≤ fp.1.2.2 := by
  refine dt_nonneg_of_time_mono _ F ?_ fp hmem
  refine (local_peaks_pairwise g amp_min p_nn).imp ?_
  intro a b h
  rcases h with h | ⟨h, _⟩
  · exact Nat.le_of_lt h
  · exact Nat.le_of_eq h

/-- A one-column spectrogram whose top and bottom cells are both peaks at the
same time index. -/
def gridB : Grid := ⟨3, 1, fun r _ => if r = 1 then 0 else 5⟩

/-- Counterexample for C4 as stated: on `gridB` (one time column holding two
peaks at frequency rows 0 and 2, detected with radius 1 and cutoff 0), the
fingerprint pairing the two peaks has dt = 0, not dt > 0. -/
theorem fingerprint_dt_zero_example :
    ∃ fp ∈ peaks_to_fingerprints (local_peaks gridB 0 1) 1, ¬ 0 < fp.1.2.2 := by
  decide

/-- Witness for C4 (amended) at the dt = 0 fingerprint of `gridB`. -/
theorem fingerprint_dt_nonneg_witness :
    1 ≤ 1 ∧ (((0, 2, (0 : Int)), 0) ∈ peaks_to_fingerprints (local_peaks gridB 0 1) 1) ∧
    (0 : Int) ≤ (((0, 2, (0 : Int)), 0) : (Nat × Nat × Int) × Nat).1.2.2 :=
  ⟨by decide, by decide, fingerprint_dt_nonneg gridB 0 1 1 (by decide) _ (by decide)⟩

/-! ## Claim C8: the cutoff quantile -/

/-- C8 (amended): for every non-empty value array and every `frac_cut` with
`0 ≤ frac_cut < 1`, the selected cutoff is the entry at index
`⌊frac_cut * N⌋` of the values in sorted order; at `frac_cut = 1` the
partition index equals `N` and the call fails instead
(`spec_cutoff_fraccut_one_fails`). -/
theorem spec_cutoff_eq_sorted_entry (values : List ℚ) (frac_cut : ℚ) (sorted : List ℚ)
    (hne : values ≠ []) (h0 : 0 ≤ frac_cut) (h1 : frac_cut < 1)
    (hperm : values.Perm sorted) (hsort : sorted.Sorted fun a b : ℚ => a ≤ b) :
    ∃ h : cutoffIndex values.length frac_cut < sorted.length,
      spec_cutoff values frac_cut
        = some (sorted.get ⟨cutoffIndex values.length frac_cut, h⟩) := by
  have hlen : sorted.length = values.length := hperm.length_eq.symm
  have hNpos : 0 < values.length := List.length_pos.2 hne
  have hflt : (⌊frac_cut * (values.length : ℚ)⌋ : Int) < (values.length : Int) := by
    rw [Int.floor_lt]
    push_cast
    calc frac_cut * (values.length : ℚ)
        < 1 * (values.length : ℚ) := by
          apply mul_lt_mul_of_pos_right h1
          exact_mod_cast hNpos
      _ = (values.length : ℚ) := one_mul _
  have hk : cutoffIndex values.length frac_cut < values.length := by
    unfold cutoffIndex
    omega
  refine ⟨by omega, ?_⟩
  have hsorteq : List.insertionSort (fun a b : ℚ => a ≤ b) values = sorted := by
    refine List.eq_of_perm_of_sorted ((List.perm_insertionSort _ _).trans hperm) ?_ hsort
    exact List.sorted_insertionSort _ _
  unfold spec_cutoff
  rw [hsorteq, List.getElem?_eq_getElem (by omega)]
  simp [List.get_eq_getElem]

/-- Counterexample for C8 as stated: at `frac_cut = 1` on the one-element
array `[5]`, the partition index is `int(1 * 1) = 1`, which `np.partition`
rejects as out of bounds for a size-1 array, so no cutoff is returned — the
sorted array has no index 1. -/
theorem spec_cutoff_fraccut_one_fails : spec_cutoff [5] 1 = none := by
  norm_num [spec_cutoff, cutoffIndex]

/-- The array of the 100 distinct values 0..99 from the claim scenario. -/
def q100 : List ℚ := (List.range 100).map (Nat.cast : Nat → ℚ)

/-- Witness for C8 (amended): the 0.77 cutoff fraction on the 100 values 0..99
selects the entry at sorted index 77. -/
theorem spec_cutoff_eq_sorted_entry_witness :
    ∃ h : cutoffIndex q100.length (77 / 100) < q100.length,
      spec_cutoff q100 (77 / 100)
        = some (q100.get ⟨cutoffIndex q100.length (77 / 100), h⟩) :=
  spec_cutoff_eq_sorted_entry q100 (77 / 100) q100 (by decide) (by norm_num)
    (by norm_num) (List.Perm.refl _)
    (by
      have hpw : List.Pairwise (fun a b : ℚ => a ≤ b) q100 := by
        unfold q100
        rw [List.pairwise_map]
        refine (List.pairwise_lt_range 100).imp ?_
        intro a b h
        exact_mod_cast Nat.le_of_lt h
      exact hpw)
